import Mathlib

/-!
Verification development for the pkgpulse container-image package-inventory
tool (main.go, v0.10.1). The Go source is shallowly embedded: strings are
modelled as lists of characters, byte blobs as lists of characters, machine
integers as Int (Go integer division is truncation toward zero, `Int.tdiv`),
and the filesystem / registry / external decoders are modelled as explicit
oracle records or function parameters. Every definition mirrors the
corresponding Go function; line references point into main.go.
-/

namespace PkgPulse

/-! Section: Basic string helpers (Go strings / path packages) -/

/-- Go strings.TrimPrefix: drop `pre` from the front of `s` if present, once. -/
def goTrimPre (s pre : List Char) : List Char :=
  if pre.isPrefixOf s then s.drop pre.length else s

/-- Go strings.Contains: `needle` occurs as a contiguous substring of `hay`. -/
def goContains (needle hay : List Char) : Bool :=
  match hay with
  | [] => needle.isEmpty
  | _ :: t => needle.isPrefixOf hay || goContains needle t

/-- Go strconv digit run: value of a nonempty run of decimal digits. -/
def digitsVal (cs : List Char) : Option Nat :=
  cs.foldl
    (fun acc c =>
      match acc with
      | some n => if c.isDigit then some (n * 10 + (c.toNat - 48)) else none
      | none => none)
    (some 0)

/-- Go strconv.ParseInt(s, 10, 64): optional sign followed by a nonempty
digit run (64-bit overflow is not modelled; the tool never feeds values near
the bound). -/
def goParseInt (s : List Char) : Option Int :=
  match s with
  | [] => none
  | '-' :: rest =>
      if rest.isEmpty then none else (digitsVal rest).map (fun n => -(n : Int))
  | '+' :: rest =>
      if rest.isEmpty then none else (digitsVal rest).map (fun n => (n : Int))
  | _ => (digitsVal s).map (fun n => (n : Int))

/-- Go filepath.Dir restricted to already-clean slash paths: everything before
the final slash, "." when there is no slash, "/" when the slash is leading. -/
def dirOf (p : List Char) : List Char :=
  let afterRev := p.reverse.takeWhile (fun c => c ≠ '/')
  if afterRev.length = p.length then ['.']
  else
    let pre := p.take (p.length - afterRev.length - 1)
    if pre.isEmpty then ['/'] else pre

/-- Go filepath.Base restricted to clean slash paths: the component after the
final slash. -/
def baseName (p : List Char) : List Char :=
  if p.isEmpty then ['.'] else (p.reverse.takeWhile (fun c => c ≠ '/')).reverse

/-- bufio.Scanner with ScanLines over a byte blob: newline-separated tokens,
no final empty token after a trailing newline, carriage returns stripped from
line ends. -/
def goLines (s : List Char) : List (List Char) :=
  let dropCR : List Char → List Char := fun l =>
    if l.getLast? = some '\r' then l.dropLast else l
  if s.isEmpty then []
  else if s.getLast? = some '\n' then ((s.splitOn '\n').dropLast).map dropCR
  else (s.splitOn '\n').map dropCR

/-! Section: Association-list model of Go maps keyed by path strings -/

/-- Lookup in a path-keyed map. -/
def alLookup {α : Type} (m : List (List Char × α)) (k : List Char) : Option α :=
  (m.find? (fun e => e.1 = k)).map (fun e => e.2)

/-- Go `m[k] = v`: replace an existing binding or append a new one. -/
def alInsert {α : Type} (m : List (List Char × α)) (k : List Char) (v : α) :
    List (List Char × α) :=
  if (alLookup m k).isSome then
    m.map (fun e => if e.1 = k then (k, v) else e)
  else m ++ [(k, v)]

/-- Go `delete(m, k)`. -/
def alErase {α : Type} (m : List (List Char × α)) (k : List Char) :
    List (List Char × α) :=
  m.filter (fun e => e.1 ≠ k)

/-! Section: Package records (main.go type pkg) -/

/-- Native package representation (main.go:60-65). `Ptype` is the Go field
`Type` ("apk", "deb", "rpm", "binary"); renamed because `Type` is a Lean
keyword. -/
structure pkg where
  Name : List Char
  Version : List Char
  SizeKB : Int
  Ptype : List Char
deriving DecidableEq, Repr

/-! Section: APK parser (main.go parseAPKDB, lines 828-876) -/

/-- Loop state of parseAPKDB: the record being accumulated and the records
emitted so far. -/
structure ApkSt where
  current : pkg
  acc : List pkg
deriving DecidableEq, Repr

/-- One scanner-line step of parseAPKDB. A blank line flushes `current` (only
when it has a name) and resets to `pkg{Type: "apk"}`; a line that is not a
one-character key followed by a colon is skipped; 'I' always overwrites the
size with bytes/1024 while 'S' does so only when the accumulated size is
still zero. -/
def apkStep (s : ApkSt) (l : List Char) : ApkSt :=
  if l.isEmpty then
    ⟨⟨[], [], 0, "apk".toList⟩,
      if s.current.Name ≠ [] then s.acc ++ [s.current] else s.acc⟩
  else
    match l with
    | k :: ':' :: v =>
        if k = 'P' then ⟨⟨v, s.current.Version, s.current.SizeKB, s.current.Ptype⟩, s.acc⟩
        else if k = 'V' then ⟨⟨s.current.Name, v, s.current.SizeKB, s.current.Ptype⟩, s.acc⟩
        else if k = 'I' then
          match goParseInt v with
          | some n => ⟨⟨s.current.Name, s.current.Version, Int.tdiv n 1024, s.current.Ptype⟩, s.acc⟩
          | none => s
        else if k = 'S' then
          if s.current.SizeKB = 0 then
            match goParseInt v with
            | some n => ⟨⟨s.current.Name, s.current.Version, Int.tdiv n 1024, s.current.Ptype⟩, s.acc⟩
            | none => s
          else s
        else s
    | _ => s

/-- parseAPKDB over scanner lines. The Go loop starts from the zero value of
`pkg` (whose Type field is the empty string) and flushes the last record at
end of input when it has a name. -/
def parseAPKDB (lines : List (List Char)) : List pkg :=
  let s := lines.foldl apkStep ⟨⟨[], [], 0, []⟩, []⟩
  if s.current.Name ≠ [] then s.acc ++ [s.current] else s.acc

/-! Section: Dpkg parser (main.go parseDpkgDB, lines 878-933) -/

/-- Loop state of parseDpkgDB. -/
structure DpkgSt where
  current : pkg
  inst : Bool
  acc : List pkg
deriving DecidableEq, Repr

/-- Go strings.Index(line, ": ") split: the text before the first ": " and
the text after it, or none when the separator does not occur. -/
def findColonSpace : List Char → Option (List Char × List Char)
  | [] => none
  | ':' :: ' ' :: rest => some ([], rest)
  | c :: rest => (findColonSpace rest).map (fun e => (c :: e.1, e.2))

/-- Whether a dpkg Status value counts as installed:
strings.Contains(value, "installed"). -/
def statusInstalled (v : List Char) : Bool :=
  goContains "installed".toList v

/-- One scanner-line step of parseDpkgDB. A blank line flushes `current` when
it has a name and its stanza's Status contained "installed", then resets to
`pkg{Type: "deb"}` with the installed flag cleared; continuation lines
(leading space) and lines without ": " are skipped. -/
def dpkgStep (s : DpkgSt) (l : List Char) : DpkgSt :=
  if l.isEmpty then
    ⟨⟨[], [], 0, "deb".toList⟩, false,
      if s.current.Name ≠ [] ∧ s.inst then s.acc ++ [s.current] else s.acc⟩
  else if l.head? = some ' ' then s
  else
    match findColonSpace l with
    | none => s
    | some (k, v) =>
        if k = "Package".toList then
          ⟨⟨v, s.current.Version, s.current.SizeKB, s.current.Ptype⟩, s.inst, s.acc⟩
        else if k = "Version".toList then
          ⟨⟨s.current.Name, v, s.current.SizeKB, s.current.Ptype⟩, s.inst, s.acc⟩
        else if k = "Installed-Size".toList then
          match goParseInt v with
          | some n => ⟨⟨s.current.Name, s.current.Version, n, s.current.Ptype⟩, s.inst, s.acc⟩
          | none => s
        else if k = "Status".toList then
          ⟨s.current, statusInstalled v, s.acc⟩
        else s

/-- parseDpkgDB over scanner lines, starting from the zero value of `pkg` and
flushing the final stanza at end of input. -/
def parseDpkgDB (lines : List (List Char)) : List pkg :=
  let s := lines.foldl dpkgStep ⟨⟨[], [], 0, []⟩, false, []⟩
  if s.current.Name ≠ [] ∧ s.inst then s.acc ++ [s.current] else s.acc

/-! Section: RPM record conversion (main.go parseRPMDB, lines 743-755) -/

/-- A raw package record as returned by the embedded rpmdb reader
(go-rpmdb); the reader itself is external and is passed as an oracle. -/
structure RpmRawPkg where
  Name : List Char
  Version : List Char
  Release : List Char
  Size : Int
deriving DecidableEq, Repr

/-- The record-mapping loop of parseRPMDB: keep named packages, version is
"Version-Release", size is bytes divided by 1024. -/
def rpmConvert (l : List RpmRawPkg) : List pkg :=
  (l.filter (fun p => p.Name ≠ [])).map
    (fun p => ⟨p.Name, p.Version ++ '-' :: p.Release, Int.tdiv p.Size 1024, "rpm".toList⟩)

/-- parseRPMDB: the embedded reader (`rpmRead`, taking the blob and the
format tag) may fail, in which case no packages are produced; on success its
records are converted by `rpmConvert`. -/
def parseRPMDB (rpmRead : List Char → List Char → Option (List RpmRawPkg))
    (data fmt : List Char) : List pkg :=
  match rpmRead data fmt with
  | none => []
  | some l => rpmConvert l

/-! Section: Layer extractor (main.go extractPackagesFromImage, lines 585-709) -/

/-- Package database paths (main.go:43-49). -/
def apkDBPath : List Char := "lib/apk/db/installed".toList

def dpkgDBPath : List Char := "var/lib/dpkg/status".toList

def rpmDBPathSqlite : List Char := "var/lib/rpm/rpmdb.sqlite".toList

def rpmDBPathBDB : List Char := "var/lib/rpm/Packages".toList

def rpmDBPathNDB : List Char := "var/lib/rpm/Packages.db".toList

/-- The reserved whiteout filename convention (".wh." prefix). -/
def whPre : List Char := ".wh.".toList

/-- tar.TypeReg ('0'). -/
def tarTypeReg : Nat := 48

/-- One tar entry of a layer: header name, type flag, mode, declared size,
and the entry's bytes (modelled as characters). -/
structure TarEntry where
  name : List Char
  typeflag : Nat
  mode : Nat
  size : Int
  content : List Char
deriving DecidableEq, Repr

/-- A layer is its ordered entry stream; an image is its ordered layer list. -/
abbrev ImageM : Type := List (List TarEntry)

/-- Path normalization of the extractor loop (main.go:624-625): strip one
leading "/" and then one leading "./". -/
def normalizePath (p : List Char) : List Char :=
  goTrimPre (goTrimPre p ['/']) ['.', '/']

/-- Extractor state: the last captured bytes of each database family, the RPM
sub-format tag, and the executable-candidate map (path to declared size).
`none` is Go's nil slice (initial or whiteout-cleared). -/
structure ExtractSt where
  apkData : Option (List Char)
  dpkgData : Option (List Char)
  rpmData : Option (List Char)
  rpmFormat : List Char
  goBinaries : List (List Char × Int)
deriving DecidableEq, Repr

/-- The initial extractor state. -/
def extractInit : ExtractSt := ⟨none, none, none, [], []⟩

/-- Whether the extractor records this entry as an executable candidate
(main.go:669-674): a regular file with an executable bit, positive size,
sitting directly in a conventional binary directory. -/
def isBinCandidate (e : TarEntry) (path : List Char) : Bool :=
  e.typeflag = tarTypeReg && e.mode &&& 73 ≠ 0 && e.size > 0 &&
    (dirOf path = "usr/bin".toList || dirOf path = "usr/local/bin".toList ||
      dirOf path = "bin".toList || dirOf path = "usr/sbin".toList ||
      dirOf path = "sbin".toList)

/-- One tar-entry step of the extractor loop (main.go:614-676). Whiteouts
clear the matching database capture and always delete the named binary
candidate; database paths overwrite their family's capture (the three RPM
paths share one capture slot plus a format tag); other entries may be
recorded as binary candidates. -/
def extractStep (s : ExtractSt) (e : TarEntry) : ExtractSt :=
  let path := normalizePath e.name
  if whPre.isPrefixOf path then
    let base := path.drop 4
    let s1 : ExtractSt :=
      if base = apkDBPath then ⟨none, s.dpkgData, s.rpmData, s.rpmFormat, s.goBinaries⟩
      else if base = dpkgDBPath then ⟨s.apkData, none, s.rpmData, s.rpmFormat, s.goBinaries⟩
      else if base = rpmDBPathSqlite ∨ base = rpmDBPathBDB ∨ base = rpmDBPathNDB then
        ⟨s.apkData, s.dpkgData, none, s.rpmFormat, s.goBinaries⟩
      else s
    ⟨s1.apkData, s1.dpkgData, s1.rpmData, s1.rpmFormat, alErase s1.goBinaries base⟩
  else if path = apkDBPath then
    ⟨some e.content, s.dpkgData, s.rpmData, s.rpmFormat, s.goBinaries⟩
  else if path = dpkgDBPath then
    ⟨s.apkData, some e.content, s.rpmData, s.rpmFormat, s.goBinaries⟩
  else if path = rpmDBPathSqlite then
    ⟨s.apkData, s.dpkgData, some e.content, "sqlite".toList, s.goBinaries⟩
  else if path = rpmDBPathBDB then
    ⟨s.apkData, s.dpkgData, some e.content, "bdb".toList, s.goBinaries⟩
  else if path = rpmDBPathNDB then
    ⟨s.apkData, s.dpkgData, some e.content, "ndb".toList, s.goBinaries⟩
  else if isBinCandidate e path then
    ⟨s.apkData, s.dpkgData, s.rpmData, s.rpmFormat, alInsert s.goBinaries path e.size⟩
  else s

/-- The extractor's layer walk: layers in ascending order, each entry stream
in order. -/
def extractLayers (layers : ImageM) : ExtractSt :=
  layers.foldl (fun s L => L.foldl extractStep s) extractInit

/-- The five fixed database paths, as an index type. -/
inductive DBPath
  | apk
  | dpkg
  | sqlite
  | bdb
  | ndb
deriving DecidableEq, Repr

/-- The on-disk path of a database key. -/
def dbPathOf : DBPath → List Char
  | .apk => apkDBPath
  | .dpkg => dpkgDBPath
  | .sqlite => rpmDBPathSqlite
  | .bdb => rpmDBPathBDB
  | .ndb => rpmDBPathNDB

/-- The format tag parseRPMDB receives for an RPM key. -/
def rpmFmtOf : DBPath → List Char
  | .sqlite => "sqlite".toList
  | .bdb => "bdb".toList
  | .ndb => "ndb".toList
  | _ => []

/-- The bytes the extractor holds for a given database path: the family's
capture slot, which for the RPM family is attributed to the sub-format path
recorded in `rpmFormat` (the slot is shared by the three RPM paths). -/
def capturedDB (s : ExtractSt) : DBPath → Option (List Char)
  | .apk => s.apkData
  | .dpkg => s.dpkgData
  | .sqlite => if s.rpmFormat = "sqlite".toList then s.rpmData else none
  | .bdb => if s.rpmFormat = "bdb".toList then s.rpmData else none
  | .ndb => if s.rpmFormat = "ndb".toList then s.rpmData else none

/-! Section: Binary-provenance prober (main.go detectGoBinaries, lines 758-825) -/

/-- The fields of a Go build-provenance header that the prober uses; the
decoder (debug/buildinfo.Read) is external and passed as an oracle. -/
structure BuildInfoM where
  GoVersion : List Char
  MainVersion : List Char
deriving DecidableEq, Repr

/-- Version selection (main.go:806-809): the module version when present and
not the "(devel)" placeholder, otherwise the toolchain version. -/
def biVersion (info : BuildInfoM) : List Char :=
  if info.MainVersion ≠ [] ∧ info.MainVersion ≠ "(devel)".toList then info.MainVersion
  else info.GoVersion

/-- One tar-entry step of the prober: entries whose normalized path is a
pending candidate are read and decoded; success emits one record and removes
the candidate, failure leaves the candidate pending. -/
def dgbStep (readBI : List Char → Option BuildInfoM)
    (st : List (List Char × Int) × List pkg) (e : TarEntry) :
    List (List Char × Int) × List pkg :=
  let path := normalizePath e.name
  match alLookup st.1 path with
  | none => st
  | some size =>
      match readBI e.content with
      | none => st
      | some info =>
          (alErase st.1 path,
            st.2 ++ [⟨baseName path, biVersion info, Int.tdiv size 1024, "binary".toList⟩])

/-- detectGoBinaries: a second pass over all layers, probing each candidate's
bytes with the build-info decoder. -/
def detectGoBinaries (readBI : List Char → Option BuildInfoM) (layers : ImageM)
    (candidates : List (List Char × Int)) : List pkg :=
  (layers.foldl (fun st L => L.foldl (dgbStep readBI) st) (candidates, [])).2

/-! Section: Dispatch (main.go extractPackagesFromImage, lines 680-708) -/

/-- The OS-level packages parsed from the captured database blobs, in the
code's apk, dpkg, rpm order; a family contributes only when its captured
blob is non-nil and nonempty. -/
def osPackages (rpmRead : List Char → List Char → Option (List RpmRawPkg))
    (s : ExtractSt) : List pkg :=
  (match s.apkData with
    | some d => if d.length > 0 then parseAPKDB (goLines d) else []
    | none => []) ++
  (match s.dpkgData with
    | some d => if d.length > 0 then parseDpkgDB (goLines d) else []
    | none => []) ++
  (match s.rpmData with
    | some d => if d.length > 0 then parseRPMDB rpmRead d s.rpmFormat else []
    | none => [])

/-- extractPackagesFromImage: walk the layers, parse the captured databases,
and fall back to the binary-provenance prober only when no OS-level package
was found and at least one candidate exists. -/
def extractPackagesFromImage (readBI : List Char → Option BuildInfoM)
    (rpmRead : List Char → List Char → Option (List RpmRawPkg))
    (layers : ImageM) : List pkg :=
  let st := extractLayers layers
  let packages := osPackages rpmRead st
  if packages.isEmpty ∧ st.goBinaries.length > 0 then
    packages ++ detectGoBinaries readBI layers st.goBinaries
  else packages

/-! Section: Per-image aggregation (main.go analyzeImage, lines 475-583) -/

/-- Output row (main.go:98-101); the float megabyte value is modelled as an
exact rational (SizeKB / 1024 is a small dyadic, exactly representable). -/
structure rowM where
  Name : List Char
  Ver : List Char
  MB : ℚ
deriving DecidableEq

/-- The row built for a package (main.go:562-566). -/
def rowOf (p : pkg) : rowM :=
  ⟨p.Name, p.Version, (p.SizeKB : ℚ) / 1024⟩

/-- Per-image aggregate (main.go:103-111). -/
structure imageResultM where
  CompressedMB : ℚ
  InstalledMB : ℚ
  PackageCount : Nat
  Rows : List rowM
  PackageMap : List (List Char × rowM)
  Source : List Char
deriving DecidableEq

/-- Descending insertion by megabyte size, modelling sort.Slice with the
comparison rows[i].MB > rows[j].MB (the Go sort is unstable, so any
permutation-sound ordering is a faithful model). -/
def insertDesc (r : rowM) : List rowM → List rowM
  | [] => [r]
  | x :: xs => if x.MB ≤ r.MB then r :: x :: xs else x :: insertDesc r xs

/-- Sort rows by descending megabyte size. -/
def sortRows (l : List rowM) : List rowM :=
  l.foldr insertDesc []

/-- One step of the row-building loop (main.go:559-570): packages with a
positive kilobyte size contribute a row, a name-keyed map entry, and their
size to the installed total; others are dropped entirely. -/
def buildStep (st : List rowM × List (List Char × rowM) × Int) (p : pkg) :
    List rowM × List (List Char × rowM) × Int :=
  if p.SizeKB > 0 then
    (st.1 ++ [rowOf p], alInsert st.2.1 p.Name (rowOf p), st.2.2 + p.SizeKB)
  else st

/-- The aggregation tail of analyzeImage (main.go:554-582): filter and
convert the packages, sort rows descending by size, and assemble the
per-image result. -/
def buildResult (packages : List pkg) (src : List Char) (comp : Int) :
    imageResultM :=
  let st := packages.foldl buildStep ([], [], 0)
  let rows := sortRows st.1
  ⟨(comp : ℚ) / (1024 * 1024), (st.2.2 : ℚ) / 1024, rows.length, rows, st.2.1, src⟩

/-! Section: Local artifact cache (main.go loadFromCache / saveToCache) -/

/-- Cache metadata (main.go cacheEntry, lines 52-57); the timestamp is an
opaque integer. -/
structure cacheEntryM where
  ImageRef : List Char
  Digest : List Char
  CachedAt : Int
  SizeBytes : Int
deriving DecidableEq, Repr

/-- The filesystem facts loadFromCache consults, in the order it consults
them: whether the cache paths are derivable, the two existence checks, the
metadata read, the JSON decode of those bytes, and the tarball open. -/
structure LoadWorld where
  pathsOk : Bool
  tarExists : Bool
  metaExists : Bool
  metaBytes : Option (List Char)
  metaParsed : Option cacheEntryM
  tarImage : Option ImageM
deriving DecidableEq

/-- loadFromCache (main.go:149-182): the Go signature (v1.Image, *cacheEntry,
bool) is mirrored so that partial hits are representable; every failure path
returns (nil, nil, false). -/
def loadFromCache (w : LoadWorld) : Option ImageM × Option cacheEntryM × Bool :=
  if ¬ w.pathsOk then (none, none, false)
  else if ¬ w.tarExists then (none, none, false)
  else if ¬ w.metaExists then (none, none, false)
  else
    match w.metaBytes with
    | none => (none, none, false)
    | some _ =>
        match w.metaParsed with
        | none => (none, none, false)
        | some entry =>
            match w.tarImage with
            | none => (none, none, false)
            | some img => (some img, some entry, true)

/-- The filesystem facts saveToCache consults, in the order it consults them:
path derivation, cache-directory creation, the image digest, reference
parsing, the tarball write, the stat of the written file, and the metadata
write. -/
structure SaveWorld where
  pathsOk : Bool
  mkdirOk : Bool
  digest : Option (List Char)
  refOk : Bool
  writeTarOk : Bool
  statSize : Option Int
  writeMetaOk : Bool
deriving DecidableEq

/-- saveToCache (main.go:184-235): each failing step returns an error tag;
success returns the metadata entry that was written. -/
def saveToCache (ref : List Char) (now : Int) (w : SaveWorld) :
    Except (List Char) cacheEntryM :=
  if ¬ w.pathsOk then .error "cache dir".toList
  else if ¬ w.mkdirOk then .error "create cache dir".toList
  else
    match w.digest with
    | none => .error "get digest".toList
    | some dg =>
        if ¬ w.refOk then .error "parse ref".toList
        else if ¬ w.writeTarOk then .error "write tarball".toList
        else
          match w.statSize with
          | none => .error "stat tarball".toList
          | some sz =>
              if ¬ w.writeMetaOk then .error "write metadata".toList
              else .ok ⟨ref, dg, now, sz⟩

/-! Section: analyzeImage resolution and fallback (main.go:475-583) -/

/-- The external facts one analyzeImage run consults: reference parsing, the
first cache probe, the registry fetch (image plus summed compressed layer
size), the cache store, and the post-store cache reload. -/
structure AnalyzeWorld where
  ref : List Char
  now : Int
  refOk : Bool
  load1 : LoadWorld
  remote : Option (ImageM × Int)
  save : SaveWorld
  load2 : LoadWorld

/-- analyzeImage on the native path (useSyft=false): a reference that does
not parse and a failed registry fetch are fatal (log.Fatal, modelled as
.error); cache-load and cache-store failures are not. The Source tag is
"cache" for a first-probe hit, "cached" after a successful store-and-reload,
and "remote" otherwise; compressed size is only known when the registry was
contacted. -/
def analyzeImage (noCache : Bool)
    (readBI : List Char → Option BuildInfoM)
    (rpmRead : List Char → List Char → Option (List RpmRawPkg))
    (w : AnalyzeWorld) : Except Unit imageResultM :=
  if ¬ w.refOk then .error ()
  else
    let build : ImageM → List Char → Int → imageResultM := fun img src comp =>
      buildResult (extractPackagesFromImage readBI rpmRead img) src comp
    let hit := if ¬ noCache then (loadFromCache w.load1).1 else none
    match hit with
    | some img => .ok (build img "cache".toList 0)
    | none =>
        match w.remote with
        | none => .error ()
        | some (rimg, comp) =>
            if ¬ noCache then
              match saveToCache w.ref w.now w.save with
              | .error _ => .ok (build rimg "remote".toList comp)
              | .ok _ =>
                  match (loadFromCache w.load2).1 with
                  | some cimg => .ok (build cimg "cached".toList comp)
                  | none => .ok (build rimg "remote".toList comp)
            else .ok (build rimg "remote".toList comp)

/-! Section: Association-list lemmas -/

theorem alLookup_nil {α : Type} (k : List Char) :
    alLookup ([] : List (List Char × α)) k = none := rfl

theorem alLookup_singleton {α : Type} (k q : List Char) (v : α) :
    alLookup [(k, v)] q = if k = q then some v else none := by
  by_cases h : k = q <;> simp [alLookup, List.find?, h]

theorem alLookup_cons {α : Type} (e : List Char × α) (t : List (List Char × α))
    (k : List Char) :
    alLookup (e :: t) k = if e.1 = k then some e.2 else alLookup t k := by
  by_cases h : e.1 = k <;> simp [alLookup, List.find?, h]

theorem alErase_cons {α : Type} (e : List Char × α) (t : List (List Char × α))
    (b : List Char) :
    alErase (e :: t) b = if e.1 = b then alErase t b else e :: alErase t b := by
  by_cases h : e.1 = b <;> simp [alErase, List.filter, h]

theorem alLookup_erase_eq {α : Type} (m : List (List Char × α)) (b k : List Char) :
    alLookup (alErase m b) k = if k = b then none else alLookup m k := by
  induction m with
  | nil => by_cases h : k = b <;> simp [alErase, alLookup, h]
  | cons e t ih =>
      rw [alErase_cons]
      by_cases hb : e.1 = b <;> by_cases hk : k = b
      · subst hk
        simp [hb, ih, alLookup_cons]
      · have hbk : ¬ b = k := fun hh => hk hh.symm
        simp [hb, hk, ih, alLookup_cons, hbk]
      · subst hk
        simp [hb, ih, alLookup_cons]
      · by_cases hek : e.1 = k <;> simp [hb, hk, ih, alLookup_cons, hek]

theorem alLookup_replace {α : Type} (m : List (List Char × α))
    (q k : List Char) (v : α) :
    alLookup (m.map (fun e => if e.1 = q then (q, v) else e)) k =
      if k = q then (alLookup m q).map (fun _ => v) else alLookup m k := by
  induction m with
  | nil => by_cases h : k = q <;> simp [alLookup, h]
  | cons e t ih =>
      simp only [List.map]
      by_cases h1 : e.1 = q <;> by_cases h2 : k = q
      · subst h2
        simp [h1, ih, alLookup_cons]
      · have hqk : ¬ q = k := fun hh => h2 hh.symm
        have hek : ¬ e.1 = k := by rw [h1]; exact hqk
        simp [h1, h2, ih, alLookup_cons, hek, hqk]
      · subst h2
        simp [h1, ih, alLookup_cons]
      · by_cases hek : e.1 = k <;> simp [h1, h2, ih, alLookup_cons, hek]

theorem alLookup_append_single {α : Type} (m : List (List Char × α))
    (q k : List Char) (v : α) :
    alLookup (m ++ [(q, v)]) k =
      if (alLookup m k).isSome then alLookup m k
      else if q = k then some v else none := by
  induction m with
  | nil => simp [alLookup_singleton, alLookup]
  | cons e t ih =>
      rw [List.cons_append, alLookup_cons, alLookup_cons, ih]
      by_cases h : e.1 = k <;> simp [h]

theorem alLookup_insert_eq {α : Type} (m : List (List Char × α))
    (q k : List Char) (v : α) :
    alLookup (alInsert m q v) k = if k = q then some v else alLookup m k := by
  unfold alInsert
  by_cases hs : (alLookup m q).isSome
  · rw [if_pos hs, alLookup_replace]
    obtain ⟨a, ha⟩ := Option.isSome_iff_exists.mp hs
    rw [ha]
    rfl
  · rw [if_neg hs, alLookup_append_single]
    by_cases hk : k = q
    · subst hk
      rw [if_neg hs, if_pos rfl, if_pos rfl]
    · rw [if_neg hk, if_neg (fun hh : q = k => hk hh.symm)]
      by_cases h2 : (alLookup m k).isSome
      · rw [if_pos h2]
      · rw [if_neg h2, Option.not_isSome_iff_eq_none.mp h2]

/-! Section: Sorting lemmas -/

theorem insertDesc_perm (r : rowM) (l : List rowM) :
    List.Perm (insertDesc r l) (r :: l) := by
  induction l with
  | nil => simp [insertDesc]
  | cons x xs ih =>
      by_cases h : x.MB ≤ r.MB
      · simp [insertDesc, h]
      · simp only [insertDesc, if_neg h]
        exact (ih.cons x).trans (List.Perm.swap r x xs)

theorem sortRows_perm (l : List rowM) : List.Perm (sortRows l) l := by
  induction l with
  | nil => simp [sortRows]
  | cons x xs ih =>
      simp only [sortRows, List.foldr] at ih ⊢
      exact (insertDesc_perm x _).trans (ih.cons x)

/-! Section: Row-building lemmas (C10) -/

theorem buildStep_fold (packages : List pkg)
    (r0 : List rowM) (m0 : List (List Char × rowM)) (t0 : Int) :
    packages.foldl buildStep (r0, m0, t0) =
      (r0 ++ (packages.filter fun p => decide (0 < p.SizeKB)).map rowOf,
       (packages.filter fun p => decide (0 < p.SizeKB)).foldl
         (fun m p => alInsert m p.Name (rowOf p)) m0,
       t0 + ((packages.filter fun p => decide (0 < p.SizeKB)).map pkg.SizeKB).sum) := by
  induction packages generalizing r0 m0 t0 with
  | nil => simp
  | cons p t ih =>
      by_cases h : 0 < p.SizeKB
      · simp only [List.foldl, buildStep, if_pos h, List.filter, decide_eq_true h]
        rw [ih]
        simp [add_assoc]
      · simp only [List.foldl, buildStep, if_neg h, List.filter,
          decide_eq_false h]
        exact ih r0 m0 t0

/-- C10: a package whose computed kilobyte size is zero or negative is
excluded from the per-image result entirely: the rows are (up to the
descending size sort) exactly the rows of the positively-sized records, the
package count is their number, the installed total sums only their sizes,
and the name-keyed map is built from them alone. -/
theorem buildResult_excludes_nonpositive (packages : List pkg)
    (src : List Char) (comp : Int) :
    List.Perm (buildResult packages src comp).Rows
        ((packages.filter fun p => decide (0 < p.SizeKB)).map rowOf) ∧
    (buildResult packages src comp).PackageCount =
        (packages.filter fun p => decide (0 < p.SizeKB)).length ∧
    (buildResult packages src comp).InstalledMB =
        (((packages.filter fun p => decide (0 < p.SizeKB)).map pkg.SizeKB).sum : ℚ) / 1024 ∧
    (buildResult packages src comp).PackageMap =
        (packages.filter fun p => decide (0 < p.SizeKB)).foldl
          (fun m p => alInsert m p.Name (rowOf p)) [] := by
  have hfold := buildStep_fold packages [] [] 0
  have hperm : List.Perm (buildResult packages src comp).Rows
      ((packages.filter fun p => decide (0 < p.SizeKB)).map rowOf) := by
    simp only [buildResult, hfold, List.nil_append]
    exact sortRows_perm _
  refine ⟨hperm, ?_, ?_, ?_⟩
  · simpa [buildResult, hfold] using (hperm.length_eq.trans (List.length_map _ _))
  · simp [buildResult, hfold]
  · simp [buildResult, hfold]

/-! Section: Size normalization (C4) -/

theorem findColonSpace_installed_size (s : List Char) :
    findColonSpace ("Installed-Size: ".toList ++ s) =
      some ("Installed-Size".toList, s) := rfl

/-- C4: sizes are normalized to kilobytes before aggregation: an Alpine
installed-size value is bytes integer-divided by 1024, a Debian
Installed-Size value is kilobytes taken unchanged, an RPM size is bytes
integer-divided by 1024; concretely, Installed-Size=1024 yields a 1.0 MB row
and an Alpine installed size of 1073741824 bytes yields a 1024 MB row. -/
theorem sizes_normalized_to_kilobytes :
    (∀ (s : List Char) (v : Int), goParseInt s = some v →
      parseAPKDB [['P', ':', 'a'], 'I' :: ':' :: s] =
        [⟨['a'], [], Int.tdiv v 1024, []⟩]) ∧
    (∀ (st : DpkgSt) (s : List Char) (n : Int), goParseInt s = some n →
      dpkgStep st ("Installed-Size: ".toList ++ s) =
        ⟨⟨st.current.Name, st.current.Version, n, st.current.Ptype⟩,
          st.inst, st.acc⟩) ∧
    (∀ r : RpmRawPkg, r.Name ≠ [] →
      rpmConvert [r] =
        [⟨r.Name, r.Version ++ '-' :: r.Release, Int.tdiv r.Size 1024, "rpm".toList⟩]) ∧
    (buildResult
        (parseDpkgDB (goLines
          "Package: a\nStatus: install ok installed\nInstalled-Size: 1024\n".toList))
        "remote".toList 0).Rows.map rowM.MB = [1] ∧
    (buildResult (parseAPKDB (goLines "P:a\nI:1073741824\n".toList))
        "remote".toList 0).Rows.map rowM.MB = [1024] := by
  refine ⟨?_, ?_, ?_, ?_, ?_⟩
  · intro s v h
    simp [parseAPKDB, apkStep, List.foldl, h]
  · intro st s n h
    have hdef : dpkgStep st ("Installed-Size: ".toList ++ s) =
        (match goParseInt s with
          | some n =>
              (⟨⟨st.current.Name, st.current.Version, n, st.current.Ptype⟩,
                st.inst, st.acc⟩ : DpkgSt)
          | none => st) := rfl
    rw [hdef, h]
  · intro r h
    simp [rpmConvert, h]
  · have h1 : parseDpkgDB (goLines
        "Package: a\nStatus: install ok installed\nInstalled-Size: 1024\n".toList) =
        [⟨['a'], [], 1024, []⟩] := by decide
    rw [h1]
    norm_num [buildResult, buildStep, sortRows, insertDesc, rowOf, List.foldl]
  · have h1 : parseAPKDB (goLines "P:a\nI:1073741824\n".toList) =
        [⟨['a'], [], 1048576, []⟩] := by decide
    rw [h1]
    norm_num [buildResult, buildStep, sortRows, insertDesc, rowOf, List.foldl]

/-- C4 witness: the generic Alpine conjunct applied at the concrete
installed-size string "768000" (750 whole kilobytes). -/
theorem sizes_normalized_to_kilobytes_witness :
    parseAPKDB [['P', ':', 'a'], 'I' :: ':' :: "768000".toList] =
      [⟨['a'], [], 750, []⟩] := by
  have h := sizes_normalized_to_kilobytes.1 "768000".toList 768000 (by decide)
  simpa using h

/-! Section: Cache resolution (C3) -/

/-- C3: loadFromCache yields a hit exactly when the cache paths derive, both
files exist, the metadata reads and decodes, and the tarball opens; on a hit
it returns that image and entry, and on any failure it returns the full miss
(nil image, nil entry, false) — never a partial hit. -/
theorem loadFromCache_hit_iff (w : LoadWorld) :
    ((loadFromCache w).2.2 = true ↔
      w.pathsOk = true ∧ w.tarExists = true ∧ w.metaExists = true ∧
        w.metaBytes.isSome = true ∧ w.metaParsed.isSome = true ∧
        w.tarImage.isSome = true) ∧
    ((loadFromCache w).2.2 = true →
      loadFromCache w = (w.tarImage, w.metaParsed, true)) ∧
    ((loadFromCache w).2.2 = false → loadFromCache w = (none, none, false)) := by
  obtain ⟨p, t, m, mb, mp, ti⟩ := w
  cases p <;> cases t <;> cases m <;> cases mb <;> cases mp <;> cases ti <;>
    simp [loadFromCache]

/-- C3 witness: a world where everything is present and valid is a hit
returning the image and entry, and breaking just the tarball read of the
same world yields the full miss. -/
theorem loadFromCache_hit_iff_witness :
    loadFromCache ⟨true, true, true, some ['x'], some ⟨['r'], ['d'], 0, 1⟩,
        some [[]]⟩ =
      (some [[]], some ⟨['r'], ['d'], 0, 1⟩, true) ∧
    loadFromCache ⟨true, true, true, some ['x'], some ⟨['r'], ['d'], 0, 1⟩,
        none⟩ =
      (none, none, false) := by
  constructor
  · exact (loadFromCache_hit_iff ⟨true, true, true, some ['x'],
      some ⟨['r'], ['d'], 0, 1⟩, some [[]]⟩).2.1 (by decide)
  · exact (loadFromCache_hit_iff ⟨true, true, true, some ['x'],
      some ⟨['r'], ['d'], 0, 1⟩, none⟩).2.2 (by decide)

/-! Section: Cache store failure is non-fatal (C9) -/

/-- C9: when the first cache probe misses, the registry fetch succeeds and
the cache store fails, analyzeImage still returns a result, computed from
the in-memory fetched image with source "remote" — identical to the result
with caching disabled — and a store with an uncreatable directory, a failed
digest, or a failed tarball write does return an error. -/
theorem cache_store_failure_nonfatal
    (readBI : List Char → Option BuildInfoM)
    (rpmRead : List Char → List Char → Option (List RpmRawPkg))
    (w : AnalyzeWorld) (rimg : ImageM) (comp : Int)
    (href : w.refOk = true)
    (hmiss : (loadFromCache w.load1).1 = none)
    (hremote : w.remote = some (rimg, comp))
    (hsave : ∃ e, saveToCache w.ref w.now w.save = .error e) :
    analyzeImage false readBI rpmRead w =
      .ok (buildResult (extractPackagesFromImage readBI rpmRead rimg)
        "remote".toList comp) ∧
    analyzeImage false readBI rpmRead w = analyzeImage true readBI rpmRead w ∧
    (∀ w2 : SaveWorld,
      w2.mkdirOk = false ∨ w2.digest = none ∨ w2.writeTarOk = false →
      ∃ e, saveToCache w.ref w.now w2 = .error e) := by
  obtain ⟨e, he⟩ := hsave
  refine ⟨?_, ?_, ?_⟩
  · simp [analyzeImage, href, hmiss, hremote, he]
  · simp [analyzeImage, href, hmiss, hremote, he]
  · intro w2 hfail
    rcases hsv : saveToCache w.ref w.now w2 with e2 | en
    · exact ⟨e2, rfl⟩
    · exfalso
      unfold saveToCache at hsv
      split at hsv
      · simp at hsv
      · split at hsv
        · simp at hsv
        · split at hsv
          · simp at hsv
          · split at hsv
            · simp at hsv
            · split at hsv
              · simp at hsv
              · split at hsv
                · simp at hsv
                · split at hsv
                  · simp at hsv
                  · rcases hfail with h | h | h <;> simp_all

/-- C9 witness: a concrete run with a cache miss, a successful fetch of an
empty image, and a store whose directory cannot be created still produces
the remote-sourced result. -/
theorem cache_store_failure_nonfatal_witness :
    analyzeImage false (fun _ => none) (fun _ _ => none)
        ⟨"img".toList, 0, true, ⟨false, false, false, none, none, none⟩,
          some ([], 5), ⟨true, false, none, false, false, none, false⟩,
          ⟨false, false, false, none, none, none⟩⟩ =
      .ok (buildResult
        (extractPackagesFromImage (fun _ => none) (fun _ _ => none) [])
        "remote".toList 5) :=
  (cache_store_failure_nonfatal (fun _ => none) (fun _ _ => none)
    ⟨"img".toList, 0, true, ⟨false, false, false, none, none, none⟩,
      some ([], 5), ⟨true, false, none, false, false, none, false⟩,
      ⟨false, false, false, none, none, none⟩⟩ [] 5 rfl rfl rfl ⟨_, rfl⟩).1

/-! Section: APK record emission (C6) -/

theorem apkStep_blank (s : ApkSt) :
    apkStep s [] = ⟨⟨[], [], 0, "apk".toList⟩,
      if s.current.Name ≠ [] then s.acc ++ [s.current] else s.acc⟩ := rfl

theorem dpkgStep_blank (s : DpkgSt) :
    dpkgStep s [] = ⟨⟨[], [], 0, "deb".toList⟩, false,
      if s.current.Name ≠ [] ∧ s.inst then s.acc ++ [s.current] else s.acc⟩ := rfl

theorem apkStep_acc (s : ApkSt) (l : List Char) (h1 : l ≠ []) :
    (apkStep s l).acc = s.acc := by
  unfold apkStep
  rw [if_neg (by simp [h1])]
  split
  · repeat' split
    all_goals rfl
  · rfl

theorem apkStep_ptype (s : ApkSt) (l : List Char) (h1 : l ≠ []) :
    (apkStep s l).current.Ptype = s.current.Ptype := by
  unfold apkStep
  rw [if_neg (by simp [h1])]
  split
  · repeat' split
    all_goals rfl
  · rfl

/-- C6 counterexample: with both size keys present, an installed-size value
of 512 bytes (0 whole kilobytes) does not win over the fallback size key —
the emitted size is the fallback's 200 KB, not Int.tdiv 512 1024. -/
theorem apk_size_preference_counterexample :
    (parseAPKDB [['P', ':', 'a'], 'I' :: ':' :: "512".toList,
        'S' :: ':' :: "204800".toList]).map pkg.SizeKB ≠ [Int.tdiv 512 1024] ∧
    (parseAPKDB [['P', ':', 'a'], 'I' :: ':' :: "512".toList,
        'S' :: ':' :: "204800".toList]).map pkg.SizeKB = [200] := by decide

/-- C6 (amended): records are emitted only at a blank-line boundary or at
end of input and only with a nonempty name; lines that are not a
one-character key followed by a colon are ignored; the installed-size key
always overwrites the accumulated size while the fallback size key applies
only when the accumulated size is still zero (so a fallback value can still
apply after an installed-size value under 1024 bytes). -/
theorem apk_record_emission :
    (∀ (s : ApkSt) (l : List Char), l ≠ [] →
      (∀ (k : Char) (v : List Char), l ≠ k :: ':' :: v) → apkStep s l = s) ∧
    (∀ (s : ApkSt) (l : List Char), l ≠ [] → (apkStep s l).acc = s.acc) ∧
    (∀ s : ApkSt, s.current.Name ≠ [] →
      apkStep s [] = ⟨⟨[], [], 0, "apk".toList⟩, s.acc ++ [s.current]⟩) ∧
    (∀ s : ApkSt, s.current.Name = [] →
      apkStep s [] = ⟨⟨[], [], 0, "apk".toList⟩, s.acc⟩) ∧
    (∀ (lines : List (List Char)) (p : pkg), p ∈ parseAPKDB lines →
      p.Name ≠ []) ∧
    (∀ (s : ApkSt) (v : List Char) (n : Int), goParseInt v = some n →
      apkStep s ('I' :: ':' :: v) =
        ⟨⟨s.current.Name, s.current.Version, Int.tdiv n 1024, s.current.Ptype⟩,
          s.acc⟩) ∧
    (∀ (s : ApkSt) (v : List Char) (n : Int), goParseInt v = some n →
      s.current.SizeKB = 0 →
      apkStep s ('S' :: ':' :: v) =
        ⟨⟨s.current.Name, s.current.Version, Int.tdiv n 1024, s.current.Ptype⟩,
          s.acc⟩) ∧
    (∀ (s : ApkSt) (v : List Char), s.current.SizeKB ≠ 0 →
      apkStep s ('S' :: ':' :: v) = s) := by
  have hacc := apkStep_acc
  refine ⟨?_, hacc, ?_, ?_, ?_, ?_, ?_, ?_⟩
  · intro s l h1 h2
    rcases l with _ | ⟨c1, _ | ⟨c2, rest⟩⟩
    · exact absurd rfl h1
    · rfl
    · by_cases hc : c2 = ':'
      · subst hc
        exact absurd rfl (h2 c1 rest)
      · unfold apkStep
        rw [if_neg (by simp)]
        split
        · exfalso
          simp_all
        · rfl
  · intro s h
    simp [apkStep, h]
  · intro s h
    simp [apkStep, h]
  · intro lines p hp
    -- invariant: every record already emitted has a nonempty name
    have key : ∀ (ls : List (List Char)) (st : ApkSt),
        (∀ q ∈ st.acc, q.Name ≠ []) →
        ∀ q ∈ (ls.foldl apkStep st).acc, q.Name ≠ [] := by
      intro ls
      induction ls with
      | nil => intro st h q hq; exact h q hq
      | cons l t ih =>
          intro st h
          refine ih (apkStep st l) ?_
          by_cases hl : l = []
          · subst hl
            by_cases hn : st.current.Name ≠ []
            · rw [(by simp [apkStep, hn] :
                  apkStep st [] = ⟨⟨[], [], 0, "apk".toList⟩, st.acc ++ [st.current]⟩)]
              intro q hq
              rcases List.mem_append.mp hq with hq | hq
              · exact h q hq
              · rcases List.mem_singleton.mp hq with rfl
                exact hn
            · rw [(by simp [apkStep, not_not.mp hn] :
                  apkStep st [] = ⟨⟨[], [], 0, "apk".toList⟩, st.acc⟩)]
              exact h
          · rw [hacc st l hl]
            exact h
    unfold parseAPKDB at hp
    by_cases hn : (lines.foldl apkStep ⟨⟨[], [], 0, []⟩, []⟩).current.Name ≠ []
    · rw [if_pos hn] at hp
      rcases List.mem_append.mp hp with hq | hq
      · exact key lines ⟨⟨[], [], 0, []⟩, []⟩ (by intro q hq; simp at hq) p hq
      · rcases List.mem_singleton.mp hq with rfl
        exact hn
    · rw [if_neg hn] at hp
      exact key lines ⟨⟨[], [], 0, []⟩, []⟩ (by intro q hq; simp at hq) p hp
  · intro s v n h
    have hdef : apkStep s ('I' :: ':' :: v) =
        (match goParseInt v with
          | some n =>
              (⟨⟨s.current.Name, s.current.Version, Int.tdiv n 1024,
                s.current.Ptype⟩, s.acc⟩ : ApkSt)
          | none => s) := rfl
    rw [hdef, h]
  · intro s v n h h0
    have hdef : apkStep s ('S' :: ':' :: v) =
        (if s.current.SizeKB = 0 then
          (match goParseInt v with
            | some n =>
                (⟨⟨s.current.Name, s.current.Version, Int.tdiv n 1024,
                  s.current.Ptype⟩, s.acc⟩ : ApkSt)
            | none => s)
        else s) := rfl
    rw [hdef, if_pos h0, h]
  · intro s v h0
    have hdef : apkStep s ('S' :: ':' :: v) =
        (if s.current.SizeKB = 0 then
          (match goParseInt v with
            | some n =>
                (⟨⟨s.current.Name, s.current.Version, Int.tdiv n 1024,
                  s.current.Ptype⟩, s.acc⟩ : ApkSt)
            | none => s)
        else s) := rfl
    rw [hdef, if_neg h0]

/-- C6 witness: the fallback size key leaves the state unchanged once a
nonzero size has been accumulated. -/
theorem apk_record_emission_witness :
    apkStep ⟨⟨['a'], [], 7, []⟩, []⟩ ('S' :: ':' :: "100".toList) =
      ⟨⟨['a'], [], 7, []⟩, []⟩ :=
  apk_record_emission.2.2.2.2.2.2.2 ⟨⟨['a'], [], 7, []⟩, []⟩ "100".toList
    (by decide)

/-! Section: Binary prober (C8) -/

theorem dgbStep_skip (readBI : List Char → Option BuildInfoM)
    (st : List (List Char × Int) × List pkg) (e : TarEntry)
    (h : alLookup st.1 (normalizePath e.name) = none) :
    dgbStep readBI st e = st := by
  simp [dgbStep, h]

theorem dgb_fold_skip (readBI : List Char → Option BuildInfoM)
    (l : List TarEntry) (st : List (List Char × Int) × List pkg)
    (h : ∀ e ∈ l, alLookup st.1 (normalizePath e.name) = none) :
    l.foldl (dgbStep readBI) st = st := by
  induction l with
  | nil => rfl
  | cons e t ih =>
      rw [List.foldl_cons, dgbStep_skip readBI st e (h e (List.mem_cons_self e t))]
      exact ih (fun e2 he2 => h e2 (List.mem_cons_of_mem e he2))

theorem detectGoBinaries_flatten (readBI : List Char → Option BuildInfoM)
    (layers : ImageM) (cands : List (List Char × Int)) :
    detectGoBinaries readBI layers cands =
      (layers.flatten.foldl (dgbStep readBI) (cands, [])).2 := by
  simp [detectGoBinaries, List.foldl_flatten]

/-- C8: with a single pending candidate at path P (declared size sz) whose
only occurrence is entry e, a successful build-info decode of e's bytes
emits exactly one record — base name of P, module version (falling back to
the toolchain version when the module version is absent or the "(devel)"
placeholder), declared size divided by 1024, type binary — while a failed
decode silently yields no record. -/
theorem prober_emits_one_record (readBI : List Char → Option BuildInfoM)
    (layers : ImageM) (pre post : List TarEntry) (e : TarEntry)
    (P : List Char) (sz : Int)
    (hsplit : layers.flatten = pre ++ e :: post)
    (hpath : normalizePath e.name = P)
    (honly : ∀ e2 ∈ pre ++ post, normalizePath e2.name ≠ P) :
    (∀ info, readBI e.content = some info →
      detectGoBinaries readBI layers [(P, sz)] =
        [⟨baseName P, biVersion info, Int.tdiv sz 1024, "binary".toList⟩]) ∧
    (readBI e.content = none → detectGoBinaries readBI layers [(P, sz)] = []) ∧
    (∀ info : BuildInfoM,
      info.MainVersion ≠ [] ∧ info.MainVersion ≠ "(devel)".toList →
      biVersion info = info.MainVersion) ∧
    (∀ info : BuildInfoM, info.MainVersion = [] →
      biVersion info = info.GoVersion) := by
  have hpre : ∀ e2 ∈ pre, normalizePath e2.name ≠ P :=
    fun e2 he2 => honly e2 (List.mem_append.mpr (Or.inl he2))
  have hpost : ∀ e2 ∈ post, normalizePath e2.name ≠ P :=
    fun e2 he2 => honly e2 (List.mem_append.mpr (Or.inr he2))
  have hskip1 : ∀ e2 ∈ pre,
      alLookup ([(P, sz)] : List (List Char × Int)) (normalizePath e2.name) = none := by
    intro e2 he2
    rw [alLookup_singleton]
    exact if_neg (fun hh => hpre e2 he2 hh.symm)
  have hfold0 :
      (layers.flatten.foldl (dgbStep readBI) ([(P, sz)], [])) =
      ((e :: post).foldl (dgbStep readBI) ([(P, sz)], [])) := by
    rw [hsplit, List.foldl_append, dgb_fold_skip readBI pre _ hskip1]
  have hlookP : alLookup ([(P, sz)] : List (List Char × Int)) P = some sz := by
    rw [alLookup_singleton, if_pos rfl]
  refine ⟨?_, ?_, ?_, ?_⟩
  · intro info hinfo
    rw [detectGoBinaries_flatten, hfold0, List.foldl_cons]
    have hstep : dgbStep readBI ([(P, sz)], []) e =
        (alErase [(P, sz)] P,
          [⟨baseName P, biVersion info, Int.tdiv sz 1024, "binary".toList⟩]) := by
      simp [dgbStep, hpath, hlookP, hinfo]
    rw [hstep]
    have herase : alErase ([(P, sz)] : List (List Char × Int)) P = [] := by
      simp [alErase]
    rw [herase]
    rw [dgb_fold_skip readBI post _ (fun e2 _ => alLookup_nil _)]
  · intro hinfo
    rw [detectGoBinaries_flatten, hfold0, List.foldl_cons]
    have hstep : dgbStep readBI ([(P, sz)], []) e = ([(P, sz)], []) := by
      simp [dgbStep, hpath, hlookP, hinfo]
    rw [hstep]
    have hskip2 : ∀ e2 ∈ post,
        alLookup ([(P, sz)] : List (List Char × Int)) (normalizePath e2.name) = none := by
      intro e2 he2
      rw [alLookup_singleton]
      exact if_neg (fun hh => hpost e2 he2 hh.symm)
    rw [dgb_fold_skip readBI post _ hskip2]
  · intro info h
    unfold biVersion
    rw [if_pos h]
  · intro info h
    unfold biVersion
    rw [if_neg (fun hc => hc.1 h)]

/-- C8 witness: one executable at usr/local/bin/app whose bytes decode with
module version v1.2.3 yields exactly the record (app, v1.2.3, 2 KB,
binary). -/
theorem prober_emits_one_record_witness :
    detectGoBinaries
        (fun c => if c = "GOBIN".toList then
          some ⟨"go1.22".toList, "v1.2.3".toList⟩ else none)
        [[⟨"usr/local/bin/app".toList, 48, 493, 2048, "GOBIN".toList⟩]]
        [("usr/local/bin/app".toList, 2048)] =
      [⟨"app".toList, "v1.2.3".toList, 2, "binary".toList⟩] := by
  have h := (prober_emits_one_record
    (fun c => if c = "GOBIN".toList then
      some ⟨"go1.22".toList, "v1.2.3".toList⟩ else none)
    [[⟨"usr/local/bin/app".toList, 48, 493, 2048, "GOBIN".toList⟩]]
    [] [] ⟨"usr/local/bin/app".toList, 48, 493, 2048, "GOBIN".toList⟩
    "usr/local/bin/app".toList 2048 (by decide) (by decide)
    (by intro e2 he2; simp at he2)).1
    ⟨"go1.22".toList, "v1.2.3".toList⟩ (by decide)
  rw [h]
  decide

/-! Section: Dispatch precedence (C7) -/

theorem dpkgStep_acc (s : DpkgSt) (l : List Char) (h1 : l ≠ []) :
    (dpkgStep s l).acc = s.acc := by
  unfold dpkgStep
  rw [if_neg (by simp [h1])]
  split
  · rfl
  · split
    · rfl
    · repeat' split
      all_goals rfl

theorem dpkgStep_ptype (s : DpkgSt) (l : List Char) (h1 : l ≠ []) :
    (dpkgStep s l).current.Ptype = s.current.Ptype := by
  unfold dpkgStep
  rw [if_neg (by simp [h1])]
  split
  · rfl
  · split
    · rfl
    · repeat' split
      all_goals rfl

theorem parseAPKDB_ptype (lines : List (List Char)) (p : pkg)
    (hp : p ∈ parseAPKDB lines) : p.Ptype = [] ∨ p.Ptype = "apk".toList := by
  have key : ∀ (ls : List (List Char)) (st : ApkSt),
      (∀ q ∈ st.acc, q.Ptype = [] ∨ q.Ptype = "apk".toList) →
      (st.current.Ptype = [] ∨ st.current.Ptype = "apk".toList) →
      (∀ q ∈ (ls.foldl apkStep st).acc, q.Ptype = [] ∨ q.Ptype = "apk".toList) ∧
        ((ls.foldl apkStep st).current.Ptype = [] ∨
          (ls.foldl apkStep st).current.Ptype = "apk".toList) := by
    intro ls
    induction ls with
    | nil => intro st h1 h2; exact ⟨h1, h2⟩
    | cons l t ih =>
        intro st h1 h2
        refine ih (apkStep st l) ?_ ?_
        · by_cases hl : l = []
          · subst hl
            by_cases hn : st.current.Name ≠ []
            · rw [(by simp [apkStep, hn] :
                  apkStep st [] = ⟨⟨[], [], 0, "apk".toList⟩, st.acc ++ [st.current]⟩)]
              intro q hq
              rcases List.mem_append.mp hq with hq | hq
              · exact h1 q hq
              · rcases List.mem_singleton.mp hq with rfl
                exact h2
            · rw [(by simp [apkStep, not_not.mp hn] :
                  apkStep st [] = ⟨⟨[], [], 0, "apk".toList⟩, st.acc⟩)]
              exact h1
          · rw [apkStep_acc st l hl]
            exact h1
        · by_cases hl : l = []
          · subst hl
            by_cases hn : st.current.Name ≠ []
            · rw [(by simp [apkStep, hn] :
                  apkStep st [] = ⟨⟨[], [], 0, "apk".toList⟩, st.acc ++ [st.current]⟩)]
              exact Or.inr rfl
            · rw [(by simp [apkStep, not_not.mp hn] :
                  apkStep st [] = ⟨⟨[], [], 0, "apk".toList⟩, st.acc⟩)]
              exact Or.inr rfl
          · rw [apkStep_ptype st l hl]
            exact h2
  have hkey := key lines ⟨⟨[], [], 0, []⟩, []⟩ (by intro q hq; simp at hq)
    (Or.inl rfl)
  unfold parseAPKDB at hp
  by_cases hn : (lines.foldl apkStep ⟨⟨[], [], 0, []⟩, []⟩).current.Name ≠ []
  · rw [if_pos hn] at hp
    rcases List.mem_append.mp hp with hq | hq
    · exact hkey.1 p hq
    · rcases List.mem_singleton.mp hq with rfl
      exact hkey.2
  · rw [if_neg hn] at hp
    exact hkey.1 p hp

theorem parseDpkgDB_ptype (lines : List (List Char)) (p : pkg)
    (hp : p ∈ parseDpkgDB lines) : p.Ptype = [] ∨ p.Ptype = "deb".toList := by
  have key : ∀ (ls : List (List Char)) (st : DpkgSt),
      (∀ q ∈ st.acc, q.Ptype = [] ∨ q.Ptype = "deb".toList) →
      (st.current.Ptype = [] ∨ st.current.Ptype = "deb".toList) →
      (∀ q ∈ (ls.foldl dpkgStep st).acc, q.Ptype = [] ∨ q.Ptype = "deb".toList) ∧
        ((ls.foldl dpkgStep st).current.Ptype = [] ∨
          (ls.foldl dpkgStep st).current.Ptype = "deb".toList) := by
    intro ls
    induction ls with
    | nil => intro st h1 h2; exact ⟨h1, h2⟩
    | cons l t ih =>
        intro st h1 h2
        rw [List.foldl_cons]
        refine ih (dpkgStep st l) ?_ ?_
        · by_cases hl : l = []
          · subst hl
            rw [dpkgStep_blank]
            by_cases hg : st.current.Name ≠ [] ∧ st.inst = true
            · rw [if_pos hg]
              intro q hq
              rcases List.mem_append.mp hq with hq | hq
              · exact h1 q hq
              · rcases List.mem_singleton.mp hq with rfl
                exact h2
            · rw [if_neg hg]
              exact h1
          · rw [dpkgStep_acc st l hl]
            exact h1
        · by_cases hl : l = []
          · subst hl
            rw [dpkgStep_blank]
            exact Or.inr rfl
          · rw [dpkgStep_ptype st l hl]
            exact h2
  have hkey := key lines ⟨⟨[], [], 0, []⟩, false, []⟩ (by intro q hq; simp at hq)
    (Or.inl rfl)
  unfold parseDpkgDB at hp
  by_cases hg : (lines.foldl dpkgStep ⟨⟨[], [], 0, []⟩, false, []⟩).current.Name ≠ [] ∧
      (lines.foldl dpkgStep ⟨⟨[], [], 0, []⟩, false, []⟩).inst = true
  · rw [if_pos hg] at hp
    rcases List.mem_append.mp hp with hq | hq
    · exact hkey.1 p hq
    · rcases List.mem_singleton.mp hq with rfl
      exact hkey.2
  · rw [if_neg hg] at hp
    exact hkey.1 p hp

theorem parseRPMDB_ptype (rpmRead : List Char → List Char → Option (List RpmRawPkg))
    (d f : List Char) (p : pkg) (hp : p ∈ parseRPMDB rpmRead d f) :
    p.Ptype = "rpm".toList := by
  unfold parseRPMDB at hp
  rcases hrr : rpmRead d f with _ | l <;> simp only [hrr] at hp
  · simp at hp
  · simp only [rpmConvert, List.mem_map] at hp
    obtain ⟨r, _, hr⟩ := hp
    rw [← hr]

theorem osPackages_not_binary
    (rpmRead : List Char → List Char → Option (List RpmRawPkg))
    (st : ExtractSt) (p : pkg) (hp : p ∈ osPackages rpmRead st) :
    p.Ptype ≠ "binary".toList := by
  unfold osPackages at hp
  rcases List.mem_append.mp hp with hp2 | hpr
  · rcases List.mem_append.mp hp2 with hpa | hpd
    · have hor : p.Ptype = [] ∨ p.Ptype = "apk".toList := by
        rcases ha : st.apkData with _ | d <;> simp only [ha] at hpa
        · simp at hpa
        · by_cases hd : d.length > 0
          · rw [if_pos hd] at hpa
            exact parseAPKDB_ptype _ p hpa
          · rw [if_neg hd] at hpa
            simp at hpa
      rcases hor with h | h <;> rw [h] <;> decide
    · have hor : p.Ptype = [] ∨ p.Ptype = "deb".toList := by
        rcases ha : st.dpkgData with _ | d <;> simp only [ha] at hpd
        · simp at hpd
        · by_cases hd : d.length > 0
          · rw [if_pos hd] at hpd
            exact parseDpkgDB_ptype _ p hpd
          · rw [if_neg hd] at hpd
            simp at hpd
      rcases hor with h | h <;> rw [h] <;> decide
  · have hr : p.Ptype = "rpm".toList := by
      rcases ha : st.rpmData with _ | d <;> simp only [ha] at hpr
      · simp at hpr
      · by_cases hd : d.length > 0
        · rw [if_pos hd] at hpr
          exact parseRPMDB_ptype rpmRead d st.rpmFormat p hpr
        · rw [if_neg hd] at hpr
          simp at hpr
    rw [hr]
    decide

/-- C7: OS-level formats take precedence — when the parsers produced at
least one package the prober's output never appears (the result is exactly
the OS package list and contains no binary-type record); the prober's
records appear only when zero OS packages were found and at least one
candidate exists, and with no candidates the result is empty. -/
theorem os_precedence (readBI : List Char → Option BuildInfoM)
    (rpmRead : List Char → List Char → Option (List RpmRawPkg))
    (layers : ImageM) :
    (osPackages rpmRead (extractLayers layers) ≠ [] →
      extractPackagesFromImage readBI rpmRead layers =
        osPackages rpmRead (extractLayers layers) ∧
      ∀ p ∈ extractPackagesFromImage readBI rpmRead layers,
        p.Ptype ≠ "binary".toList) ∧
    (osPackages rpmRead (extractLayers layers) = [] →
      (extractLayers layers).goBinaries ≠ [] →
      extractPackagesFromImage readBI rpmRead layers =
        detectGoBinaries readBI layers (extractLayers layers).goBinaries) ∧
    (osPackages rpmRead (extractLayers layers) = [] →
      (extractLayers layers).goBinaries = [] →
      extractPackagesFromImage readBI rpmRead layers = []) := by
  refine ⟨?_, ?_, ?_⟩
  · intro hos
    have hresult : extractPackagesFromImage readBI rpmRead layers =
        osPackages rpmRead (extractLayers layers) := by
      unfold extractPackagesFromImage
      rw [if_neg]
      intro hcond
      exact hos (List.isEmpty_iff.mp hcond.1)
    refine ⟨hresult, ?_⟩
    intro p hp
    rw [hresult] at hp
    exact osPackages_not_binary rpmRead _ p hp
  · intro hos hgb
    unfold extractPackagesFromImage
    rw [if_pos ⟨List.isEmpty_iff.mpr hos, List.length_pos.mpr hgb⟩, hos,
      List.nil_append]
  · intro hos hgb
    unfold extractPackagesFromImage
    rw [if_neg, hos]
    intro hcond
    rw [hgb] at hcond
    simp at hcond

/-- C7 witness: an image whose only layer carries an APK database with one
package is parsed natively — the binary prober contributes nothing even
though a probe function is supplied. -/
theorem os_precedence_witness :
    extractPackagesFromImage
        (fun _ => some ⟨"go1.22".toList, "v9".toList⟩) (fun _ _ => none)
        [[⟨"lib/apk/db/installed".toList, 48, 420, 11,
          "P:a\nI:2048\n".toList⟩]] =
      [⟨['a'], [], 2, []⟩] := by
  have h := (os_precedence (fun _ => some ⟨"go1.22".toList, "v9".toList⟩)
    (fun _ _ => none)
    [[⟨"lib/apk/db/installed".toList, 48, 420, 11, "P:a\nI:2048\n".toList⟩]]).1
    (by decide)
  rw [h.1]
  decide

/-! Section: Dpkg status filtering (C5) -/

/-- Whether a scanner line is a Status field whose value contains
"installed". -/
def installedStatusLine (l : List Char) : Bool :=
  match findColonSpace l with
  | some (k, v) => if k = "Status".toList then statusInstalled v else false
  | none => false

theorem dpkgStep_notinstalled (c : pkg) (acc : List pkg) (l : List Char)
    (h1 : l ≠ []) (h2 : installedStatusLine l = false) :
    ∃ c2, dpkgStep ⟨c, false, acc⟩ l = ⟨c2, false, acc⟩ := by
  unfold dpkgStep
  rw [if_neg (by simp [h1])]
  by_cases hh : l.head? = some ' '
  · rw [if_pos hh]
    exact ⟨c, rfl⟩
  · rw [if_neg hh]
    rcases hfc : findColonSpace l with _ | ⟨k, v⟩ <;> simp only [hfc]
    · exact ⟨c, rfl⟩
    · unfold installedStatusLine at h2
      simp only [hfc] at h2
      by_cases hk1 : k = "Package".toList
      · rw [if_pos hk1]
        exact ⟨_, rfl⟩
      rw [if_neg hk1]
      by_cases hk2 : k = "Version".toList
      · rw [if_pos hk2]
        exact ⟨_, rfl⟩
      rw [if_neg hk2]
      by_cases hk3 : k = "Installed-Size".toList
      · rw [if_pos hk3]
        rcases hgp : goParseInt v with _ | n <;> simp only [hgp]
        · exact ⟨c, rfl⟩
        · exact ⟨_, rfl⟩
      rw [if_neg hk3]
      by_cases hk4 : k = "Status".toList
      · rw [if_pos hk4]
        rw [if_pos hk4] at h2
        rw [h2]
        exact ⟨c, rfl⟩
      · rw [if_neg hk4]
        exact ⟨c, rfl⟩

theorem dpkg_skip_fold (S : List (List Char))
    (hnb : ∀ l ∈ S, l ≠ []) (hni : ∀ l ∈ S, installedStatusLine l = false) :
    ∀ (c : pkg) (acc : List pkg),
      ∃ c2, S.foldl dpkgStep ⟨c, false, acc⟩ = ⟨c2, false, acc⟩ := by
  induction S with
  | nil => exact fun c acc => ⟨c, rfl⟩
  | cons l t ih =>
      intro c acc
      obtain ⟨c1, hc1⟩ := dpkgStep_notinstalled c acc l
        (hnb l (List.mem_cons_self l t))
        (hni l (List.mem_cons_self l t))
      rw [List.foldl_cons, hc1]
      exact ih (fun l2 hl2 => hnb l2 (List.mem_cons_of_mem l hl2))
        (fun l2 hl2 => hni l2 (List.mem_cons_of_mem l hl2)) c1 acc

theorem dpkg_fold_skip_mid (S rest : List (List Char))
    (hnb : ∀ l ∈ S, l ≠ [])
    (hni : ∀ l ∈ S, installedStatusLine l = false) (st0 : DpkgSt) :
    List.foldl dpkgStep st0 ([] :: S ++ [] :: rest) =
      List.foldl dpkgStep st0 ([] :: rest) := by
  obtain ⟨c2, hc2⟩ := dpkg_skip_fold S hnb hni ⟨[], [], 0, "deb".toList⟩
    (if st0.current.Name ≠ [] ∧ st0.inst then st0.acc ++ [st0.current]
      else st0.acc)
  have hin : List.foldl dpkgStep st0 ([] :: S) =
      ⟨c2, false, if st0.current.Name ≠ [] ∧ st0.inst then
        st0.acc ++ [st0.current] else st0.acc⟩ := by
    rw [List.foldl_cons, dpkgStep_blank]
    exact hc2
  rw [List.foldl_append, hin, List.foldl_cons, List.foldl_cons,
    dpkgStep_blank, dpkgStep_blank]
  simp

theorem dpkg_fold_skip_end (S : List (List Char))
    (hnb : ∀ l ∈ S, l ≠ [])
    (hni : ∀ l ∈ S, installedStatusLine l = false) (st0 : DpkgSt) :
    ∃ c2, List.foldl dpkgStep st0 ([] :: S) =
      ⟨c2, false, (List.foldl dpkgStep st0 [[]]).acc⟩ := by
  rw [List.foldl_cons, dpkgStep_blank]
  obtain ⟨c2, hc2⟩ := dpkg_skip_fold S hnb hni ⟨[], [], 0, "deb".toList⟩
    (if st0.current.Name ≠ [] ∧ st0.inst then st0.acc ++ [st0.current]
      else st0.acc)
  refine ⟨c2, ?_⟩
  rw [hc2]
  simp [List.foldl, dpkgStep_blank]

/-- C5: a stanza none of whose lines is a Status field containing
"installed" (including the no-Status-line case) contributes no record:
deleting the stanza — at the start of the input, in the middle, or at the
end — leaves the parser's output unchanged, and an input that is one such
stanza parses to no records at all. -/
theorem dpkg_uninstalled_stanza_excluded (S pre rest : List (List Char))
    (hnb : ∀ l ∈ S, l ≠ [])
    (hni : ∀ l ∈ S, installedStatusLine l = false) :
    parseDpkgDB (S ++ [] :: rest) = parseDpkgDB ([] :: rest) ∧
    parseDpkgDB S = [] ∧
    parseDpkgDB (pre ++ [] :: S ++ [] :: rest) =
      parseDpkgDB (pre ++ [] :: rest) ∧
    parseDpkgDB (pre ++ [] :: S) = parseDpkgDB (pre ++ [[]]) := by
  refine ⟨?_, ?_, ?_, ?_⟩
  · unfold parseDpkgDB
    rw [List.foldl_append]
    obtain ⟨c2, hc2⟩ := dpkg_skip_fold S hnb hni ⟨[], [], 0, []⟩ []
    rw [hc2, List.foldl_cons, List.foldl_cons, dpkgStep_blank, dpkgStep_blank]
    simp
  · unfold parseDpkgDB
    obtain ⟨c2, hc2⟩ := dpkg_skip_fold S hnb hni ⟨[], [], 0, []⟩ []
    rw [hc2]
    simp
  · unfold parseDpkgDB
    rw [List.append_assoc, List.foldl_append,
      dpkg_fold_skip_mid S rest hnb hni, List.foldl_append]
  · unfold parseDpkgDB
    rw [List.foldl_append, List.foldl_append]
    obtain ⟨c2, hc2⟩ := dpkg_fold_skip_end S hnb hni
      (List.foldl dpkgStep ⟨⟨[], [], 0, []⟩, false, []⟩ pre)
    rw [hc2]
    simp [List.foldl, dpkgStep_blank]

/-- C5 witness: a removed-but-not-purged stanza at the start of a status
file contributes nothing; the output is that of the rest of the input. -/
theorem dpkg_uninstalled_stanza_excluded_witness :
    parseDpkgDB (["Package: x".toList,
        "Status: deinstall ok config-files".toList] ++
      [] :: ["Package: y".toList, "Status: install ok installed".toList,
        "Installed-Size: 3".toList]) =
      parseDpkgDB ([] :: ["Package: y".toList,
        "Status: install ok installed".toList,
        "Installed-Size: 3".toList]) :=
  (dpkg_uninstalled_stanza_excluded
    ["Package: x".toList, "Status: deinstall ok config-files".toList] []
    ["Package: y".toList, "Status: install ok installed".toList,
      "Installed-Size: 3".toList]
    (by decide) (by decide)).1

/-! Section: Layer compaction: whiteouts and last-write-wins (C1, C2) -/

theorem extractLayers_flatten (layers : ImageM) :
    extractLayers layers = layers.flatten.foldl extractStep extractInit := by
  simp [extractLayers, List.foldl_flatten]

theorem whPre_decomp (p : List Char) (h : whPre.isPrefixOf p = true) :
    p = whPre ++ p.drop 4 := by
  obtain ⟨t, ht⟩ := List.isPrefixOf_iff_prefix.mp h
  rw [← ht]
  rw [show (whPre ++ t).drop 4 = (whPre ++ t).drop whPre.length from rfl,
    List.drop_left]

/-- The paths sharing one capture slot with a database key: the three RPM
paths share the single rpmData/rpmFormat slot, the other two are alone. -/
def slotPaths : DBPath → List (List Char)
  | .apk => [apkDBPath]
  | .dpkg => [dpkgDBPath]
  | _ => [rpmDBPathSqlite, rpmDBPathBDB, rpmDBPathNDB]

theorem extractStep_write (s : ExtractSt) (e : TarEntry) (D : DBPath)
    (h : normalizePath e.name = dbPathOf D) :
    capturedDB (extractStep s e) D = some e.content := by
  cases D <;>
    · simp only [dbPathOf] at h
      simp only [extractStep, h]
      rw [if_neg (by decide)]
      simp [capturedDB, apkDBPath, dpkgDBPath, rpmDBPathSqlite, rpmDBPathBDB,
        rpmDBPathNDB]

theorem whPre_append_drop (Q : List Char) : (whPre ++ Q).drop 4 = Q := by
  rw [show (whPre ++ Q).drop 4 = (whPre ++ Q).drop whPre.length from rfl,
    List.drop_left]

theorem extractStep_apk_cases (s : ExtractSt) (e : TarEntry) :
    (extractStep s e).apkData = s.apkData ∨
    ((extractStep s e).apkData = none ∧
      normalizePath e.name = whPre ++ apkDBPath) ∨
    ((extractStep s e).apkData = some e.content ∧
      normalizePath e.name = apkDBPath) := by
  simp only [extractStep]
  split_ifs <;>
    first
      | exact Or.inl rfl
      | (rename_i hp hb
         exact Or.inr (Or.inl ⟨rfl, by rw [whPre_decomp _ hp, hb]⟩))
      | (rename_i hw2
         exact Or.inr (Or.inr ⟨rfl, hw2⟩))

theorem extractStep_dpkg_cases (s : ExtractSt) (e : TarEntry) :
    (extractStep s e).dpkgData = s.dpkgData ∨
    ((extractStep s e).dpkgData = none ∧
      normalizePath e.name = whPre ++ dpkgDBPath) ∨
    ((extractStep s e).dpkgData = some e.content ∧
      normalizePath e.name = dpkgDBPath) := by
  simp only [extractStep]
  split_ifs <;>
    first
      | exact Or.inl rfl
      | (rename_i hp h1 hb
         exact Or.inr (Or.inl ⟨rfl, by rw [whPre_decomp _ hp, hb]⟩))
      | (rename_i hw2
         exact Or.inr (Or.inr ⟨rfl, hw2⟩))

theorem extractStep_rpm_cases (s : ExtractSt) (e : TarEntry) :
    ((extractStep s e).rpmData = s.rpmData ∧
      (extractStep s e).rpmFormat = s.rpmFormat) ∨
    ((extractStep s e).rpmData = none ∧
      (extractStep s e).rpmFormat = s.rpmFormat ∧
      (normalizePath e.name = whPre ++ rpmDBPathSqlite ∨
       normalizePath e.name = whPre ++ rpmDBPathBDB ∨
       normalizePath e.name = whPre ++ rpmDBPathNDB)) ∨
    ((extractStep s e).rpmData = some e.content ∧
      (((extractStep s e).rpmFormat = "sqlite".toList ∧
          normalizePath e.name = rpmDBPathSqlite) ∨
       ((extractStep s e).rpmFormat = "bdb".toList ∧
          normalizePath e.name = rpmDBPathBDB) ∨
       ((extractStep s e).rpmFormat = "ndb".toList ∧
          normalizePath e.name = rpmDBPathNDB))) := by
  simp only [extractStep]
  split_ifs <;>
    first
      | exact Or.inl ⟨rfl, rfl⟩
      | (rename_i hp h1 h2 hb
         refine Or.inr (Or.inl ⟨rfl, rfl, ?_⟩)
         rcases hb with hb | hb | hb
         · exact Or.inl (by rw [whPre_decomp _ hp, hb])
         · exact Or.inr (Or.inl (by rw [whPre_decomp _ hp, hb]))
         · exact Or.inr (Or.inr (by rw [whPre_decomp _ hp, hb])))
      | (rename_i hw2
         exact Or.inr (Or.inr ⟨rfl, Or.inl ⟨rfl, hw2⟩⟩))
      | (rename_i hw2
         exact Or.inr (Or.inr ⟨rfl, Or.inr (Or.inl ⟨rfl, hw2⟩)⟩))
      | (rename_i hw2
         exact Or.inr (Or.inr ⟨rfl, Or.inr (Or.inr ⟨rfl, hw2⟩)⟩))

theorem extractStep_gb_cases (s : ExtractSt) (e : TarEntry) :
    (extractStep s e).goBinaries = s.goBinaries ∨
    (extractStep s e).goBinaries =
      alErase s.goBinaries ((normalizePath e.name).drop 4) ∨
    (extractStep s e).goBinaries =
      alInsert s.goBinaries (normalizePath e.name) e.size := by
  simp only [extractStep]
  split_ifs <;> simp

theorem extractStep_keeps_none (s : ExtractSt) (e : TarEntry) (D : DBPath)
    (hnone : capturedDB s D = none)
    (hw : normalizePath e.name ≠ dbPathOf D) :
    capturedDB (extractStep s e) D = none := by
  cases D with
  | apk =>
      rcases extractStep_apk_cases s e with h | ⟨h, _⟩ | ⟨_, hcon⟩
      · simpa [capturedDB, h] using hnone
      · simp [capturedDB, h]
      · exact absurd hcon (by simpa [dbPathOf] using hw)
  | dpkg =>
      rcases extractStep_dpkg_cases s e with h | ⟨h, _⟩ | ⟨_, hcon⟩
      · simpa [capturedDB, h] using hnone
      · simp [capturedDB, h]
      · exact absurd hcon (by simpa [dbPathOf] using hw)
  | sqlite =>
      rcases extractStep_rpm_cases s e with ⟨h1, h2⟩ | ⟨h1, h2, _⟩ |
        ⟨h1, ⟨hf, hp⟩ | ⟨hf, hp⟩ | ⟨hf, hp⟩⟩
      · simpa [capturedDB, h1, h2] using hnone
      · simp [capturedDB, h1]
      · exact absurd hp (by simpa [dbPathOf] using hw)
      · simp [capturedDB, hf]
      · simp [capturedDB, hf]
  | bdb =>
      rcases extractStep_rpm_cases s e with ⟨h1, h2⟩ | ⟨h1, h2, _⟩ |
        ⟨h1, ⟨hf, hp⟩ | ⟨hf, hp⟩ | ⟨hf, hp⟩⟩
      · simpa [capturedDB, h1, h2] using hnone
      · simp [capturedDB, h1]
      · simp [capturedDB, hf]
      · exact absurd hp (by simpa [dbPathOf] using hw)
      · simp [capturedDB, hf]
  | ndb =>
      rcases extractStep_rpm_cases s e with ⟨h1, h2⟩ | ⟨h1, h2, _⟩ |
        ⟨h1, ⟨hf, hp⟩ | ⟨hf, hp⟩ | ⟨hf, hp⟩⟩
      · simpa [capturedDB, h1, h2] using hnone
      · simp [capturedDB, h1]
      · simp [capturedDB, hf]
      · simp [capturedDB, hf]
      · exact absurd hp (by simpa [dbPathOf] using hw)

theorem extractStep_keeps_nocand (s : ExtractSt) (e : TarEntry) (P : List Char)
    (hnone : alLookup s.goBinaries P = none)
    (hw : normalizePath e.name ≠ P) :
    alLookup (extractStep s e).goBinaries P = none := by
  rcases extractStep_gb_cases s e with h | h | h <;> rw [h]
  · exact hnone
  · rw [alLookup_erase_eq]
    split_ifs
    · rfl
    · exact hnone
  · rw [alLookup_insert_eq, if_neg (fun hc => hw hc.symm)]
    exact hnone

theorem extractStep_whiteout_gb (s : ExtractSt) (e : TarEntry)
    (h0 : whPre.isPrefixOf (normalizePath e.name) = true) :
    (extractStep s e).goBinaries =
      alErase s.goBinaries ((normalizePath e.name).drop 4) := by
  simp only [extractStep]
  rw [if_pos h0]
  split_ifs <;> rfl

theorem extractStep_whiteout_clears (s : ExtractSt) (e : TarEntry) (D : DBPath)
    (h0 : whPre.isPrefixOf (normalizePath e.name) = true)
    (hd : (normalizePath e.name).drop 4 = dbPathOf D) :
    capturedDB (extractStep s e) D = none := by
  cases D with
  | apk =>
      simp only [dbPathOf] at hd
      simp only [extractStep]
      rw [if_pos h0, hd, if_pos rfl]
      rfl
  | dpkg =>
      simp only [dbPathOf] at hd
      simp only [extractStep]
      rw [if_pos h0, hd, if_neg (by decide), if_pos rfl]
      rfl
  | sqlite =>
      simp only [dbPathOf] at hd
      simp only [extractStep]
      rw [if_pos h0, hd, if_neg (by decide), if_neg (by decide),
        if_pos (Or.inl rfl)]
      simp [capturedDB]
  | bdb =>
      simp only [dbPathOf] at hd
      simp only [extractStep]
      rw [if_pos h0, hd, if_neg (by decide), if_neg (by decide),
        if_pos (Or.inr (Or.inl rfl))]
      simp [capturedDB]
  | ndb =>
      simp only [dbPathOf] at hd
      simp only [extractStep]
      rw [if_pos h0, hd, if_neg (by decide), if_neg (by decide),
        if_pos (Or.inr (Or.inr rfl))]
      simp [capturedDB]

theorem extractStep_whiteout (s : ExtractSt) (e : TarEntry) (P : List Char)
    (h : normalizePath e.name = whPre ++ P) :
    (∀ D, dbPathOf D = P → capturedDB (extractStep s e) D = none) ∧
    alLookup (extractStep s e).goBinaries P = none := by
  have hpre : whPre.isPrefixOf (normalizePath e.name) = true := by
    rw [h]
    exact List.isPrefixOf_iff_prefix.mpr ⟨P, rfl⟩
  have hdrop : (normalizePath e.name).drop 4 = P := by
    rw [h, whPre_append_drop]
  constructor
  · intro D hD
    exact extractStep_whiteout_clears s e D hpre (by rw [hdrop, hD])
  · rw [extractStep_whiteout_gb s e hpre, hdrop, alLookup_erase_eq,
      if_pos rfl]

theorem extractStep_keeps_slot (s : ExtractSt) (e : TarEntry) (D : DBPath)
    (hfr : ∀ Q ∈ slotPaths D, normalizePath e.name ≠ Q ∧
      normalizePath e.name ≠ whPre ++ Q) :
    capturedDB (extractStep s e) D = capturedDB s D := by
  cases D with
  | apk =>
      obtain ⟨hw, hwh⟩ := hfr apkDBPath (by simp [slotPaths])
      rcases extractStep_apk_cases s e with h | ⟨_, hcon⟩ | ⟨_, hcon⟩
      · simp [capturedDB, h]
      · exact absurd hcon hwh
      · exact absurd hcon hw
  | dpkg =>
      obtain ⟨hw, hwh⟩ := hfr dpkgDBPath (by simp [slotPaths])
      rcases extractStep_dpkg_cases s e with h | ⟨_, hcon⟩ | ⟨_, hcon⟩
      · simp [capturedDB, h]
      · exact absurd hcon hwh
      · exact absurd hcon hw
  | sqlite =>
      have hs := hfr rpmDBPathSqlite (by simp [slotPaths])
      have hb := hfr rpmDBPathBDB (by simp [slotPaths])
      have hn := hfr rpmDBPathNDB (by simp [slotPaths])
      rcases extractStep_rpm_cases s e with ⟨h1, h2⟩ | ⟨_, _, hc⟩ | ⟨_, hc⟩
      · simp [capturedDB, h1, h2]
      · rcases hc with hc | hc | hc
        exacts [absurd hc hs.2, absurd hc hb.2, absurd hc hn.2]
      · rcases hc with ⟨_, hc⟩ | ⟨_, hc⟩ | ⟨_, hc⟩
        exacts [absurd hc hs.1, absurd hc hb.1, absurd hc hn.1]
  | bdb =>
      have hs := hfr rpmDBPathSqlite (by simp [slotPaths])
      have hb := hfr rpmDBPathBDB (by simp [slotPaths])
      have hn := hfr rpmDBPathNDB (by simp [slotPaths])
      rcases extractStep_rpm_cases s e with ⟨h1, h2⟩ | ⟨_, _, hc⟩ | ⟨_, hc⟩
      · simp [capturedDB, h1, h2]
      · rcases hc with hc | hc | hc
        exacts [absurd hc hs.2, absurd hc hb.2, absurd hc hn.2]
      · rcases hc with ⟨_, hc⟩ | ⟨_, hc⟩ | ⟨_, hc⟩
        exacts [absurd hc hs.1, absurd hc hb.1, absurd hc hn.1]
  | ndb =>
      have hs := hfr rpmDBPathSqlite (by simp [slotPaths])
      have hb := hfr rpmDBPathBDB (by simp [slotPaths])
      have hn := hfr rpmDBPathNDB (by simp [slotPaths])
      rcases extractStep_rpm_cases s e with ⟨h1, h2⟩ | ⟨_, _, hc⟩ | ⟨_, hc⟩
      · simp [capturedDB, h1, h2]
      · rcases hc with hc | hc | hc
        exacts [absurd hc hs.2, absurd hc hb.2, absurd hc hn.2]
      · rcases hc with ⟨_, hc⟩ | ⟨_, hc⟩ | ⟨_, hc⟩
        exacts [absurd hc hs.1, absurd hc hb.1, absurd hc hn.1]

theorem extract_fold_absent (P : List Char) (l : List TarEntry) (s : ExtractSt)
    (hinv1 : ∀ D, dbPathOf D = P → capturedDB s D = none)
    (hinv2 : alLookup s.goBinaries P = none)
    (hl : ∀ e ∈ l, normalizePath e.name ≠ P) :
    (∀ D, dbPathOf D = P → capturedDB (l.foldl extractStep s) D = none) ∧
      alLookup (l.foldl extractStep s).goBinaries P = none := by
  induction l generalizing s with
  | nil => exact ⟨hinv1, hinv2⟩
  | cons e t ih =>
      rw [List.foldl_cons]
      refine ih (extractStep s e) ?_ ?_ ?_
      · intro D hD
        exact extractStep_keeps_none s e D (hinv1 D hD)
          (by rw [hD]; exact hl e (List.mem_cons_self e t))
      · exact extractStep_keeps_nocand s e P hinv2 (hl e (List.mem_cons_self e t))
      · exact fun e2 he2 => hl e2 (List.mem_cons_of_mem e he2)

theorem extract_fold_keeps_slot (D : DBPath) (l : List TarEntry) (s : ExtractSt)
    (hl : ∀ e2 ∈ l, ∀ Q ∈ slotPaths D, normalizePath e2.name ≠ Q ∧
      normalizePath e2.name ≠ whPre ++ Q) :
    capturedDB (l.foldl extractStep s) D = capturedDB s D := by
  induction l generalizing s with
  | nil => rfl
  | cons e t ih =>
      rw [List.foldl_cons,
        ih (extractStep s e) (fun e2 he2 => hl e2 (List.mem_cons_of_mem e he2)),
        extractStep_keeps_slot s e D (hl e (List.mem_cons_self e t))]

/-- C1: if some entry is a whiteout of path P at a position later than an
entry that wrote P, and nothing after the whiteout has path P, then P is
absent from the extractor's final captured state: every database capture
keyed by P is cleared and no binary candidate at P remains. -/
theorem whiteout_removes_path (layers : ImageM) (pre post : List TarEntry)
    (w : TarEntry) (P : List Char)
    (hsplit : layers.flatten = pre ++ w :: post)
    (hwh : normalizePath w.name = whPre ++ P)
    (hwrote : ∃ e ∈ pre, normalizePath e.name = P)
    (hafter : ∀ e ∈ post, normalizePath e.name ≠ P) :
    (∀ D, dbPathOf D = P → capturedDB (extractLayers layers) D = none) ∧
    alLookup (extractLayers layers).goBinaries P = none := by
  rw [extractLayers_flatten, hsplit, List.foldl_append, List.foldl_cons]
  have hstep := extractStep_whiteout (List.foldl extractStep extractInit pre) w P hwh
  exact extract_fold_absent P post _ hstep.1 hstep.2 hafter

/-- C1 witness: a layer writing the Alpine database followed by a layer
whiting it out leaves no captured blob and no candidate for that path. -/
theorem whiteout_removes_path_witness :
    capturedDB (extractLayers
        [[⟨"lib/apk/db/installed".toList, 48, 420, 5, "data1".toList⟩],
          [⟨".wh.lib/apk/db/installed".toList, 48, 420, 0, []⟩]]) DBPath.apk =
      none ∧
    alLookup (extractLayers
        [[⟨"lib/apk/db/installed".toList, 48, 420, 5, "data1".toList⟩],
          [⟨".wh.lib/apk/db/installed".toList, 48, 420, 0, []⟩]]).goBinaries
      "lib/apk/db/installed".toList = none := by
  have h := whiteout_removes_path
    [[⟨"lib/apk/db/installed".toList, 48, 420, 5, "data1".toList⟩],
      [⟨".wh.lib/apk/db/installed".toList, 48, 420, 0, []⟩]]
    [⟨"lib/apk/db/installed".toList, 48, 420, 5, "data1".toList⟩] []
    ⟨".wh.lib/apk/db/installed".toList, 48, 420, 0, []⟩
    "lib/apk/db/installed".toList
    (by decide) (by decide)
    ⟨⟨"lib/apk/db/installed".toList, 48, 420, 5, "data1".toList⟩, by decide⟩
    (by intro e he; simp at he)
  exact ⟨h.1 DBPath.apk (by decide), h.2⟩

/-- C2 counterexample: layer 0 writes the SQLite RPM path and layer 1 writes
the BerkeleyDB RPM path — a different path, so no later layer writes or
deletes the SQLite path — yet the captured content for the SQLite path is
not layer 0's bytes: the shared RPM slot now holds layer 1's bytes under the
"bdb" tag. -/
theorem last_write_wins_counterexample :
    normalizePath "var/lib/rpm/rpmdb.sqlite".toList = dbPathOf DBPath.sqlite ∧
    normalizePath "var/lib/rpm/Packages".toList ≠ dbPathOf DBPath.sqlite ∧
    normalizePath "var/lib/rpm/Packages".toList ≠
      whPre ++ dbPathOf DBPath.sqlite ∧
    capturedDB (extractLayers
        [[⟨"var/lib/rpm/rpmdb.sqlite".toList, 48, 420, 3, "AAA".toList⟩],
          [⟨"var/lib/rpm/Packages".toList, 48, 420, 3, "BBB".toList⟩]])
      DBPath.sqlite ≠ some "AAA".toList ∧
    (extractLayers
        [[⟨"var/lib/rpm/rpmdb.sqlite".toList, 48, 420, 3, "AAA".toList⟩],
          [⟨"var/lib/rpm/Packages".toList, 48, 420, 3, "BBB".toList⟩]]).rpmData =
      some "BBB".toList := by decide

/-- C2 (amended): if an entry writes database path P and no subsequent entry
(same layer or later) writes or deletes any path sharing P's capture slot
(the three RPM paths share one slot; the Alpine and Debian paths have their
own), then the captured content for P equals exactly the bytes that entry
wrote. -/
theorem last_write_wins_slot (layers : ImageM) (pre post : List TarEntry)
    (e : TarEntry) (D : DBPath)
    (hsplit : layers.flatten = pre ++ e :: post)
    (hwrite : normalizePath e.name = dbPathOf D)
    (hafter : ∀ e2 ∈ post, ∀ Q ∈ slotPaths D,
      normalizePath e2.name ≠ Q ∧ normalizePath e2.name ≠ whPre ++ Q) :
    capturedDB (extractLayers layers) D = some e.content := by
  rw [extractLayers_flatten, hsplit, List.foldl_append, List.foldl_cons,
    extract_fold_keeps_slot D post _ hafter,
    extractStep_write _ e D hwrite]

/-- C2 witness: a single layer writing the SQLite RPM path is captured
exactly. -/
theorem last_write_wins_slot_witness :
    capturedDB (extractLayers
        [[⟨"var/lib/rpm/rpmdb.sqlite".toList, 48, 420, 3, "AAA".toList⟩]])
      DBPath.sqlite = some "AAA".toList :=
  last_write_wins_slot
    [[⟨"var/lib/rpm/rpmdb.sqlite".toList, 48, 420, 3, "AAA".toList⟩]]
    [] [] ⟨"var/lib/rpm/rpmdb.sqlite".toList, 48, 420, 3, "AAA".toList⟩
    DBPath.sqlite (by decide) (by decide)
    (by intro e2 he2; simp at he2)

end PkgPulse
